import Mathlib

/-!
Verification of the belief-tree search engine of the `ca-bed` repository.

The Python source is shallowly embedded:
* dictionaries (`dict[str, float]`) become association lists `List (String × ℚ)`
  in insertion order, floats become exact rationals `ℚ`;
* code that can raise (`ZeroDivisionError`, `KeyError`, failed `assert`,
  a raising collaborator) returns `Option`/`Except` with `none`/`.error`
  marking the raise;
* `math.log2` is kept as an explicit function parameter `log2` of the reward
  engine; theorems about entropy instantiate it with `Real.logb 2`;
* parent back-pointers of tree nodes are modelled by an explicit ancestor
  chain (the list of `(parent question, grandparent evidence)` pairs from a
  node up to the root), since the pure trees own only their children.
-/

set_option maxHeartbeats 1000000

namespace CABed

/-- Python `dict.get(key, default)` over an association list in insertion order. -/
def dict_get (l : List (String × ℚ)) (key : String) (dflt : ℚ) : ℚ :=
  match l with
  | [] => dflt
  | (k, v) :: rest => if key = k then v else dict_get rest key dflt

/-- Blending of an estimated likelihood with the uniform fallback, as in
`method.py` `calculate_posterior`:
`likelihoods.get(h, uniform_likelihood) * estimator_confidence + uniform_likelihood * (1 - estimator_confidence)`. -/
def blended (likelihoods : List (String × ℚ)) (uniform_likelihood estimator_confidence : ℚ)
    (h : String) : ℚ :=
  dict_get likelihoods h uniform_likelihood * estimator_confidence +
    uniform_likelihood * (1 - estimator_confidence)

/-- The `all_posteriors` dict of `calculate_posterior`: each prior entry multiplied
by its blended likelihood. -/
def all_posteriors (prior likelihoods : List (String × ℚ))
    (uniform_likelihood estimator_confidence : ℚ) : List (String × ℚ) :=
  prior.map fun hp => (hp.1, hp.2 * blended likelihoods uniform_likelihood estimator_confidence hp.1)

/-- The `unnormalised` dict of `calculate_posterior`: entries at least
`min_probability`, falling back to the unpruned `all_posteriors` when the filter
empties the belief state. -/
def surviving (prior likelihoods : List (String × ℚ))
    (min_probability uniform_likelihood estimator_confidence : ℚ) : List (String × ℚ) :=
  let ap := all_posteriors prior likelihoods uniform_likelihood estimator_confidence
  let f := ap.filter fun hp => min_probability ≤ hp.2
  if f = [] then ap else f

/-- `calculate_posterior` of `method.py`. Returns `none` exactly when Python
raises `ZeroDivisionError`, i.e. when the sum `marginal` of the surviving
unnormalised posteriors is zero and the final normalising division `p / marginal`
fails. -/
def calculate_posterior (prior likelihoods : List (String × ℚ))
    (min_probability uniform_likelihood estimator_confidence : ℚ) :
    Option (List (String × ℚ) × ℚ) :=
  let unnormalised :=
    surviving prior likelihoods min_probability uniform_likelihood estimator_confidence
  let marginal := (unnormalised.map Prod.snd).sum
  if marginal = 0 then none
  else some (unnormalised.map (fun hp => (hp.1, hp.2 / marginal)), marginal)

mutual

/-- `EvidenceNode` of `node.py`: answer text, belief state, marginal likelihood,
question children. The parent back-pointer is modelled by the ancestor chain
`Ancestry` below. -/
inductive EvidenceNode (α : Type) : Type where
  | mk : String → List (String × α) → α → List (QuestionNode α) → EvidenceNode α

/-- `QuestionNode` of `node.py`: question text, possible answers, evidence
children. -/
inductive QuestionNode (α : Type) : Type where
  | mk : String → List String → List (EvidenceNode α) → QuestionNode α

end

def EvidenceNode.answer {α : Type} : EvidenceNode α → String
  | .mk a _ _ _ => a

def EvidenceNode.belief_state {α : Type} : EvidenceNode α → List (String × α)
  | .mk _ b _ _ => b

def EvidenceNode.marginal_likelihood {α : Type} : EvidenceNode α → α
  | .mk _ _ m _ => m

def EvidenceNode.children {α : Type} : EvidenceNode α → List (QuestionNode α)
  | .mk _ _ _ cs => cs

def QuestionNode.question {α : Type} : QuestionNode α → String
  | .mk q _ _ => q

def QuestionNode.possible_answers {α : Type} : QuestionNode α → List String
  | .mk _ pa _ => pa

def QuestionNode.children {α : Type} : QuestionNode α → List (EvidenceNode α)
  | .mk _ _ cs => cs

/-- The chain of parent links of an `EvidenceNode`, from the node up to the
root: `(parent question, grandparent evidence)` pairs. The root has `[]`
(its `parent` is `None`). -/
abbrev Ancestry (α : Type) := List (QuestionNode α × EvidenceNode α)

/-- `get_conversation_depth` of `node.py`: `0` at the root, else
`1 + get_conversation_depth(node.parent.parent)`. -/
def get_conversation_depth {α : Type} : Ancestry α → Nat
  | [] => 0
  | _ :: rest => 1 + get_conversation_depth rest

/-- The summation inside `shannon_entropy` of `rewards.py`:
`sum(prob * log2(prob) for prob in values if prob > 0)`, with `math.log2` kept
as the explicit parameter `log2`. -/
def entropy_terms {α : Type} [LinearOrderedField α] (log2 : α → α) : List α → α
  | [] => 0
  | p :: rest => (if 0 < p then p * log2 p else 0) + entropy_terms log2 rest

/-- `shannon_entropy` of `rewards.py`. -/
def shannon_entropy {α : Type} [LinearOrderedField α] (log2 : α → α)
    (belief_state : List (String × α)) : α :=
  -(entropy_terms log2 (belief_state.map Prod.snd))

/-- `information_gain` of `rewards.py`. -/
def information_gain {α : Type} [LinearOrderedField α] (log2 : α → α)
    (prior_belief_state posterior_belief_state : List (String × α)) : α :=
  shannon_entropy log2 prior_belief_state - shannon_entropy log2 posterior_belief_state

/-- `specificity_penalty` of `rewards.py`:
`sharpness_constant * (max(child marginals) - min(child marginals))`.
Python's `max`/`min` raise on an empty sequence, modelled by `none`. -/
def specificity_penalty {α : Type} [LinearOrderedField α] (sharpness_constant : α)
    (question : QuestionNode α) : Option α :=
  match question.children.map EvidenceNode.marginal_likelihood with
  | [] => none
  | m :: ms => some (sharpness_constant * (ms.foldl max m - ms.foldl min m))

/-- `immediate_reward` of `rewards.py`. The `assert evidence.parent is not None`
failure on the root is modelled by `none` on an empty ancestry. -/
def immediate_reward {α : Type} [LinearOrderedField α] (log2 : α → α)
    (sharpness_constant : α) (evidence : EvidenceNode α) : Ancestry α → Option α
  | [] => none
  | (q, g) :: _ =>
    match specificity_penalty sharpness_constant q with
    | none => none
    | some sp =>
      some (information_gain log2 g.belief_state evidence.belief_state / (1 + sp))

/-- `accumulated_reward` of `rewards.py`: `0` at the root, else
`immediate_reward(evidence) + accumulated_reward(evidence.parent.parent)`. -/
def accumulated_reward {α : Type} [LinearOrderedField α] (log2 : α → α)
    (sharpness_constant : α) : EvidenceNode α → Ancestry α → Option α
  | _, [] => some 0
  | e, (q, g) :: rest =>
    match immediate_reward log2 sharpness_constant e ((q, g) :: rest),
        accumulated_reward log2 sharpness_constant g rest with
    | some ir, some ar => some (ir + ar)
    | _, _ => none

mutual

/-- `expected_reward` of `rewards.py`. The `assert len(question.children) > 0`
failure is modelled by `none`; `pe` and `anc` are the parent evidence node and
its ancestry (the question's parent links). -/
def expected_reward {α : Type} [LinearOrderedField α] (log2 : α → α) (sharp : α) :
    QuestionNode α → EvidenceNode α → Ancestry α → Option α
  | QuestionNode.mk _ _ [], _, _ => none
  | QuestionNode.mk t a (e :: es), pe, anc =>
    evidence_contribution_sum log2 sharp (QuestionNode.mk t a (e :: es)) pe anc (e :: es)
termination_by q pe anc => sizeOf q

/-- The `weighted_mean_reward` accumulation loop of `expected_reward`:
sum over evidence children of `marginal_likelihood * evidence_reward`. -/
def evidence_contribution_sum {α : Type} [LinearOrderedField α] (log2 : α → α) (sharp : α) :
    QuestionNode α → EvidenceNode α → Ancestry α → List (EvidenceNode α) → Option α
  | _, _, _, [] => some 0
  | q, pe, anc, e :: rest =>
    match contribution log2 sharp q pe anc e,
        evidence_contribution_sum log2 sharp q pe anc rest with
    | some c, some s => some (e.marginal_likelihood * c + s)
    | _, _ => none
termination_by q pe anc l => sizeOf l

/-- The `evidence_reward` of one evidence child inside `expected_reward`: the
mean of `expected_reward` over its question children when it has any, else
`accumulated_reward`. -/
def contribution {α : Type} [LinearOrderedField α] (log2 : α → α) (sharp : α) :
    QuestionNode α → EvidenceNode α → Ancestry α → EvidenceNode α → Option α
  | q, pe, anc, EvidenceNode.mk a b m [] =>
    accumulated_reward log2 sharp (EvidenceNode.mk a b m []) ((q, pe) :: anc)
  | q, pe, anc, EvidenceNode.mk a b m (fq :: fqs) =>
    match future_reward_sum log2 sharp (EvidenceNode.mk a b m (fq :: fqs))
        ((q, pe) :: anc) (fq :: fqs) with
    | some s => some (s / ((fq :: fqs).length : α))
    | none => none
termination_by q pe anc e => sizeOf e

/-- The `sum(expected_reward(future_question, ...) for ...)` inside
`expected_reward`. -/
def future_reward_sum {α : Type} [LinearOrderedField α] (log2 : α → α) (sharp : α) :
    EvidenceNode α → Ancestry α → List (QuestionNode α) → Option α
  | _, _, [] => some 0
  | e, anc2, fq :: rest =>
    match expected_reward log2 sharp fq e anc2,
        future_reward_sum log2 sharp e anc2 rest with
    | some r, some s => some (r + s)
    | _, _ => none
termination_by e anc l => sizeOf l

end

/-- The fixed `log2` table used on the dyadic sample tree: exact values of
`math.log2` on the probabilities `1/2`, `1/4` and `1` occurring there. -/
def dyadic_log2 : ℚ → ℚ :=
  fun q => if q = 1/2 then -1 else if q = 1/4 then -2 else 0

def sample_E2y : EvidenceNode ℚ := .mk "Yes" [("A", 1)] (1/2) []

def sample_E2n : EvidenceNode ℚ := .mk "No" [("B", 1)] (1/2) []

def sample_Q2 : QuestionNode ℚ := .mk "Q2" ["Yes", "No"] [sample_E2y, sample_E2n]

def sample_Eyes : EvidenceNode ℚ :=
  .mk "Yes" [("A", 1/2), ("B", 1/2)] (1/2) [sample_Q2]

def sample_Eno : EvidenceNode ℚ := .mk "No" [("C", 1/2), ("D", 1/2)] (1/2) []

def sample_Q1 : QuestionNode ℚ := .mk "Q1" ["Yes", "No"] [sample_Eyes, sample_Eno]

def sample_root : EvidenceNode ℚ :=
  .mk "ROOT" [("A", 1/4), ("B", 1/4), ("C", 1/4), ("D", 1/4)] 1 [sample_Q1]

/-- Generic association-list lookup, modelling Python dict subscripting
(`none` is a `KeyError`). -/
def alist_find {β : Type} : List (String × β) → String → Option β
  | [], _ => none
  | (k, v) :: rest, key => if key = k then some v else alist_find rest key

/-- Python dict assignment `d[key] = v`: replace the value in place when the
key exists, append otherwise. -/
def alist_insert {β : Type} : List (String × β) → String → β → List (String × β)
  | [], key, v => [(key, v)]
  | (k, w) :: rest, key, v =>
    if key = k then (key, v) :: rest else (k, w) :: alist_insert rest key v

/-- Python `dict.update(other)`: assign every entry of `other` in order. -/
def alist_update {β : Type} (l upd : List (String × β)) : List (String × β) :=
  upd.foldl (fun acc kv => alist_insert acc kv.1 kv.2) l

/-- `Cluster` of `question_clustering.py`: question occurrence counts and the
hypothesis-to-answer-to-likelihood cache. The per-cluster `asyncio.Lock` has no
observable content in this sequential model. -/
structure Cluster where
  questions : List (String × Nat)
  likelihoods : List (String × List (String × ℚ))

def Cluster.get_hypotheses (c : Cluster) : List String :=
  c.likelihoods.map Prod.fst

/-- `Cluster.get_answers`: `[]` when the cache is empty, else the first
hypothesis's answer keys; the assert that all hypotheses share one answer-key
set is modelled by `Except.error`. -/
def Cluster.get_answers (c : Cluster) : Except String (List String) :=
  match c.likelihoods with
  | [] => .ok []
  | (_, first) :: rest =>
    if rest.all fun hl =>
        (hl.2.map Prod.fst).all (fun a => (first.map Prod.fst).contains a) &&
          (first.map Prod.fst).all fun a => (hl.2.map Prod.fst).contains a then
      .ok (first.map Prod.fst)
    else .error "Hypotheses in cluster do not have consistent answers!"

/-- The per-row lookups of `Cluster.get_likelihoods_for_answer`; a hypothesis
row without the requested answer is a `KeyError` (`none`). -/
def rows_for_answer (answer : String) :
    List (String × List (String × ℚ)) → Option (List (String × ℚ))
  | [] => some []
  | (h, hl) :: rest =>
    match alist_find hl answer, rows_for_answer answer rest with
    | some v, some tail => some ((h, v) :: tail)
    | _, _ => none

/-- `Cluster.get_likelihoods_for_answer` of `question_clustering.py`. -/
def Cluster.get_likelihoods_for_answer (c : Cluster) (answer : String) :
    Option (List (String × ℚ)) :=
  rows_for_answer answer c.likelihoods

/-- `QuestionClustering` state: the nearest-neighbor index as the list of
inserted vectors (voyager ids are sequential insertion positions), the
id-to-cluster map keyed by the stringified id, and the construction-time
threshold. The embedding model and the distance are passed explicitly. -/
structure QuestionClustering (V : Type) where
  index : List V
  clusters : List (String × Cluster)
  threshold : ℚ

def query_aux {V : Type} (dist : V → V → ℚ) (e : V) :
    List V → Nat → Nat × ℚ → Nat × ℚ
  | [], _, best => best
  | v :: vs, i, best =>
    query_aux dist e vs (i + 1) (if dist e v < best.2 then (i, dist e v) else best)

/-- The `index.query(embedding, k=1)` call: index of the nearest stored vector
and its distance (first minimum on ties); `none` on an empty index. -/
def query_nearest {V : Type} (dist : V → V → ℚ) (e : V) :
    List V → Option (Nat × ℚ)
  | [] => none
  | v :: vs => some (query_aux dist e vs 1 (0, dist e v))

/-- The occurrence-count bump
`best_cluster.questions[question] = best_cluster.questions.get(question, 0) + 1`. -/
def bump_question (c : Cluster) (question : String) : Cluster :=
  { c with questions :=
      alist_insert c.questions question ((alist_find c.questions question).getD 0 + 1) }

/-- `QuestionClustering.get_cluster`: embed the question; query the nearest
neighbor when at least one cluster exists; when its similarity `1 - distance`
reaches the threshold, return that neighbor's cluster id after bumping the
question's occurrence count; otherwise insert the embedding under the next
sequential id and register a fresh cluster holding only this question. -/
def get_cluster {V : Type} (encode : String → V) (dist : V → V → ℚ)
    (qc : QuestionClustering V) (question : String) :
    Except String (String × QuestionClustering V) :=
  let embedding := encode question
  let q := if 1 ≤ qc.clusters.length then query_nearest dist embedding qc.index else none
  match q with
  | some (n, d) =>
    if qc.threshold ≤ 1 - d then
      let key := toString n
      match alist_find qc.clusters key with
      | none => .error "KeyError"
      | some c =>
        .ok (key, { qc with
          clusters := alist_insert qc.clusters key (bump_question c question) })
    else
      let idx := toString qc.index.length
      .ok (idx, QuestionClustering.mk (qc.index ++ [embedding])
        (alist_insert qc.clusters idx (Cluster.mk [(question, 1)] [])) qc.threshold)
  | none =>
    let idx := toString qc.index.length
    .ok (idx, QuestionClustering.mk (qc.index ++ [embedding])
      (alist_insert qc.clusters idx (Cluster.mk [(question, 1)] [])) qc.threshold)

/-- The `missing_hypotheses` set difference of `expand_questions`: hypotheses
of the parent belief state absent from the cluster's cached likelihoods. -/
def missing_hypotheses (parent_belief : List (String × ℚ)) (c : Cluster) :
    List String :=
  (parent_belief.map Prod.fst).filter fun h => !(c.get_hypotheses.contains h)

/-- `TreeTask` of `tasks/tree_task.py`: the numeric task parameters together
with the four abstract collaborator calls, which may raise (`Except.error`).
The sessions and prompt-side fields are outside the modelled core. -/
structure TreeTask where
  task_answer : String
  max_question_nodes : Nat
  max_lookahead_depth : Nat
  max_conversation_depth : Nat
  confidence_threshold : ℚ
  estimator_confidence : ℚ
  hypothesis_space : List String
  create_initial_belief_state : Except String (List (String × ℚ))
  create_questions : EvidenceNode ℚ → Except String (List (String × List String))
  get_likelihoods :
    String → List String → List String → Except String (List (String × List (String × ℚ)))
  get_answer : QuestionNode ℚ → Except String (EvidenceNode ℚ)

/-- `is_terminal` of `method.py`: conversation depth at least
`max_conversation_depth`, or some belief-state probability at least
`confidence_threshold`. The node's parent chain is passed as `anc`. -/
def is_terminal (node : EvidenceNode ℚ) (anc : Ancestry ℚ) (task : TreeTask) : Bool :=
  task.max_conversation_depth ≤ get_conversation_depth anc ||
    node.belief_state.any fun hp => task.confidence_threshold ≤ hp.2

/-- String rendering of an evidence node, after `EvidenceNode.__str__`. -/
def str_evidence (e : EvidenceNode ℚ) : String :=
  "Answer: " ++ e.answer ++ " | Marginal Likelihood: " ++
    toString e.marginal_likelihood ++ " | Belief State: " ++ toString e.belief_state

/-- String rendering of a question node, after `QuestionNode.__str__`. -/
def str_question (q : QuestionNode ℚ) : String :=
  "Question: " ++ q.question ++ " | Possible Answers: " ++ toString q.possible_answers

/-- The fields of `RunRecord` (`history.py`) that the engine core determines:
the visited path and the final belief state. Timestamps, sessions and the
serialised tree are outside the modelled core. -/
structure RunRecord where
  final_path : List String
  final_belief_state : List (String × ℚ)

/-- The `for answer in answers` loop of `expand_questions` (`method.py`): one
new `EvidenceNode` per answer via `calculate_posterior`, whose
`uniform_likelihood` argument `1 / len(answers)` is evaluated inside the loop
body. `none` from `calculate_posterior` is Python's `ZeroDivisionError`; a
hypothesis row missing the answer is a `KeyError`. -/
def build_evidence_children (parent_belief : List (String × ℚ)) (c : Cluster)
    (min_probability estimator_confidence : ℚ) (all_answers : List String) :
    List String → Except String (List (EvidenceNode ℚ))
  | [] => .ok []
  | answer :: rest =>
    match c.get_likelihoods_for_answer answer with
    | none => .error "KeyError"
    | some likelihoods =>
      match calculate_posterior parent_belief likelihoods min_probability
          (1 / (all_answers.length : ℚ)) estimator_confidence with
      | none => .error "ZeroDivisionError: division by zero"
      | some (posterior, marginal) =>
        match build_evidence_children parent_belief c min_probability
            estimator_confidence all_answers rest with
        | .error e => .error e
        | .ok tail => .ok (EvidenceNode.mk answer posterior marginal [] :: tail)

/-- The child-creation body of `expand_questions` (`method.py`): resolve the
cluster, prefer its cached answer set and else the node's own
`possible_answers`, fetch likelihoods for the hypotheses missing from the
cluster cache, merge them into the cache, and build one evidence child per
resolved answer. Returns the updated `possible_answers`, the new children and
the updated clustering state. When the node already has children it is a
no-op. -/
def question_phase {V : Type} (encode : String → V) (dist : V → V → ℚ)
    (task : TreeTask) (min_probability : ℚ) (qtext : String) (pans : List String)
    (children : List (EvidenceNode ℚ)) (qc : QuestionClustering V)
    (parent : EvidenceNode ℚ) :
    Except String (List String × List (EvidenceNode ℚ) × QuestionClustering V) :=
  if children.isEmpty then
    match get_cluster encode dist qc qtext with
    | .error e => .error e
    | .ok (key, qc1) =>
      match alist_find qc1.clusters key with
      | none => .error "KeyError"
      | some c0 =>
        match c0.get_answers with
        | .error e => .error e
        | .ok cached =>
          let answers := if cached.isEmpty then pans else cached
          let pans2 := if cached.isEmpty then pans else cached
          let missing := missing_hypotheses parent.belief_state c0
          match (if missing.isEmpty then .ok c0 else
              (task.get_likelihoods qtext answers missing).map fun new =>
                Cluster.mk c0.questions (alist_update c0.likelihoods new)) with
          | .error e => .error e
          | .ok c1 =>
            let qc2 := QuestionClustering.mk qc1.index
              (alist_insert qc1.clusters key c1) qc1.threshold
            match build_evidence_children parent.belief_state c1 min_probability
                task.estimator_confidence answers answers with
            | .error e => .error e
            | .ok children1 => .ok (pans2, children1, qc2)
  else .ok (pans, children, qc)

mutual

/-- `expand_evidence` of `method.py`, with an explicit step-count fuel making
the recursion total (`none` = fuel exhausted; a real run only needs fuel
proportional to `max_lookahead_depth`). The concurrent `asyncio.gather` over
children is sequentialised in order; the node's parent chain is `anc`. -/
def expand_evidence {V : Type} (encode : String → V) (dist : V → V → ℚ)
    (task : TreeTask) (min_probability : ℚ) :
    Nat → EvidenceNode ℚ → Nat → QuestionClustering V → Ancestry ℚ →
    Option (Except String (EvidenceNode ℚ × QuestionClustering V))
  | 0, _, _, _, _ => none
  | fuel + 1, node, current_depth, qc, anc =>
    if is_terminal node anc task || task.max_lookahead_depth ≤ current_depth then
      some (.ok (node, qc))
    else
      match node with
      | EvidenceNode.mk ans bs m children =>
        match (if children.isEmpty then
            (task.create_questions (EvidenceNode.mk ans bs m children)).map
              fun qs => qs.map fun q => QuestionNode.mk q.1 q.2 []
          else .ok children) with
        | .error e => some (.error e)
        | .ok question_children =>
          match expand_questions_list encode dist task min_probability fuel
              question_children current_depth qc anc
              (EvidenceNode.mk ans bs m children) with
          | none => none
          | some (.error e) => some (.error e)
          | some (.ok (children2, qc2)) =>
            some (.ok (EvidenceNode.mk ans bs m children2, qc2))

/-- The `asyncio.gather` fan-out of `expand_evidence` over its question
children, sequentialised. -/
def expand_questions_list {V : Type} (encode : String → V) (dist : V → V → ℚ)
    (task : TreeTask) (min_probability : ℚ) :
    Nat → List (QuestionNode ℚ) → Nat → QuestionClustering V → Ancestry ℚ →
    EvidenceNode ℚ →
    Option (Except String (List (QuestionNode ℚ) × QuestionClustering V))
  | 0, _, _, _, _, _ => none
  | _ + 1, [], _, qc, _, _ => some (.ok ([], qc))
  | fuel + 1, q :: rest, current_depth, qc, anc, parent =>
    match expand_questions encode dist task min_probability fuel q current_depth
        qc anc parent with
    | none => none
    | some (.error e) => some (.error e)
    | some (.ok (q2, qc2)) =>
      match expand_questions_list encode dist task min_probability fuel rest
          current_depth qc2 anc parent with
      | none => none
      | some (.error e) => some (.error e)
      | some (.ok (rest2, qc3)) => some (.ok (q2 :: rest2, qc3))

/-- `expand_questions` of `method.py`: run the question phase (child creation),
then fan out into the evidence phase for every child at depth + 1. -/
def expand_questions {V : Type} (encode : String → V) (dist : V → V → ℚ)
    (task : TreeTask) (min_probability : ℚ) :
    Nat → QuestionNode ℚ → Nat → QuestionClustering V → Ancestry ℚ →
    EvidenceNode ℚ →
    Option (Except String (QuestionNode ℚ × QuestionClustering V))
  | 0, _, _, _, _, _ => none
  | fuel + 1, QuestionNode.mk qtext pans children, current_depth, qc, anc, parent =>
    match question_phase encode dist task min_probability qtext pans children
        qc parent with
    | .error e => some (.error e)
    | .ok (pans2, children1, qc2) =>
      match expand_evidence_list encode dist task min_probability fuel children1
          (current_depth + 1) qc2
          ((QuestionNode.mk qtext pans2 children1, parent) :: anc) with
      | none => none
      | some (.error e) => some (.error e)
      | some (.ok (children2, qc3)) =>
        some (.ok (QuestionNode.mk qtext pans2 children2, qc3))

/-- The `asyncio.gather` fan-out of `expand_questions` over its evidence
children, sequentialised. -/
def expand_evidence_list {V : Type} (encode : String → V) (dist : V → V → ℚ)
    (task : TreeTask) (min_probability : ℚ) :
    Nat → List (EvidenceNode ℚ) → Nat → QuestionClustering V → Ancestry ℚ →
    Option (Except String (List (EvidenceNode ℚ) × QuestionClustering V))
  | 0, _, _, _, _ => none
  | _ + 1, [], _, qc, _ => some (.ok ([], qc))
  | fuel + 1, e :: rest, current_depth, qc, anc =>
    match expand_evidence encode dist task min_probability fuel e current_depth
        qc anc with
    | none => none
    | some (.error err) => some (.error err)
    | some (.ok (e2, qc2)) =>
      match expand_evidence_list encode dist task min_probability fuel rest
          current_depth qc2 anc with
      | none => none
      | some (.error err) => some (.error err)
      | some (.ok (rest2, qc3)) => some (.ok (e2 :: rest2, qc3))

end

def argmax_aux {β : Type} (f : β → Option ℚ) : List β → β → ℚ → Except String β
  | [], best, _ => .ok best
  | b :: rest, best, bestKey =>
    match f b with
    | none => .error "Question has no answers!"
    | some k =>
      if bestKey < k then argmax_aux f rest b k else argmax_aux f rest best bestKey

/-- Python `max(children, key=...)` with an `Option`-valued key: raises on an
empty sequence (`ValueError`) or when the key function's assert fails; returns
the first maximum (only a strict improvement replaces the current best). -/
def argmax_by {β : Type} (f : β → Option ℚ) : List β → Except String β
  | [] => .error "max() arg is an empty sequence"
  | b :: rest =>
    match f b with
    | none => .error "Question has no answers!"
    | some k => argmax_aux f rest b k

/-- The `while not is_terminal` loop of `run_task` (`method.py`), fuel-bounded
(`none` = loop budget exhausted, i.e. divergence). A collaborator failure is an
`Except.error` carrying the exception text together with `final_path` and
`current_node` as the `except` block of `run_task` observes them. -/
def run_loop {V : Type} (encode : String → V) (dist : V → V → ℚ) (log2 : ℚ → ℚ)
    (task : TreeTask) (sharpness_constant min_probability : ℚ) :
    Nat → EvidenceNode ℚ → Ancestry ℚ → QuestionClustering V → List String →
    Option (Except (String × List String × EvidenceNode ℚ)
      (List String × EvidenceNode ℚ))
  | 0, _, _, _, _ => none
  | fuel + 1, current, anc, qc, path =>
    if is_terminal current anc task then some (.ok (path, current))
    else
      match expand_evidence encode dist task min_probability (fuel + 1) current 0
          qc anc with
      | none => none
      | some (.error e) => some (.error (e, path, current))
      | some (.ok (current2, qc2)) =>
        match argmax_by
            (fun q => expected_reward log2 sharpness_constant q current2 anc)
            current2.children with
        | .error e => some (.error (e, path, current2))
        | .ok best =>
          match task.get_answer best with
          | .error e => some (.error (e, path ++ [str_question best], current2))
          | .ok selected =>
            run_loop encode dist log2 task sharpness_constant min_probability fuel
              selected ((best, current2) :: anc) qc2
              (path ++ [str_question best] ++ [str_evidence selected])

/-- `run_task` of `method.py`: build the root from the initial belief state
(outside the `try`, so a failure there propagates), run the loop, and produce a
`RunRecord` from `final_path` and the current belief state whether the loop
reached a terminal node or was aborted by a caught exception. -/
def run_task {V : Type} (encode : String → V) (dist : V → V → ℚ) (log2 : ℚ → ℚ)
    (task : TreeTask) (sharpness_constant min_probability : ℚ)
    (qc : QuestionClustering V) (fuel : Nat) : Except String (Option RunRecord) :=
  match task.create_initial_belief_state with
  | .error e => .error e
  | .ok initial_belief_state =>
    let root := EvidenceNode.mk "ROOT" initial_belief_state 1 []
    match run_loop encode dist log2 task sharpness_constant min_probability fuel
        root [] qc [str_evidence root] with
    | none => .ok none
    | some (.ok (path, final)) => .ok (some (RunRecord.mk path final.belief_state))
    | some (.error (_, path, final)) => .ok (some (RunRecord.mk path final.belief_state))

/-- A concrete demonstration task whose question-generation collaborator
always raises. -/
def failing_question_task : TreeTask :=
  TreeTask.mk "A" 1 1 5 1 1 ["A", "B"]
    (.ok [("A", 1/2), ("B", 1/2)])
    (fun _ => .error "boom")
    (fun _ _ missing => .ok (missing.map fun h => (h, [])))
    (fun _ => .error "unused")

/-- A concrete demonstration task whose likelihood estimator returns an empty
answer distribution for every hypothesis. -/
def empty_answer_task : TreeTask :=
  TreeTask.mk "A" 1 1 5 1 1 ["A"]
    (.ok [("A", 1)])
    (fun _ => .ok [("Q?", [])])
    (fun _ _ missing => .ok (missing.map fun h => (h, [])))
    (fun _ => .error "unused")

theorem map_fst_map_value {β : Type} (l : List (String × β)) (g : String × β → β) :
    (l.map fun hp => (hp.1, g hp)).map Prod.fst = l.map Prod.fst := by
  induction l with
  | nil => rfl
  | cons a t ih => simp [ih]

theorem sum_map_snd_div (l : List (String × ℚ)) (m : ℚ) :
    ((l.map fun hp => (hp.1, hp.2 / m)).map Prod.snd).sum = (l.map Prod.snd).sum / m := by
  induction l with
  | nil => simp
  | cons a t ih =>
    simp only [List.map_cons, List.sum_cons, ih, add_div]

theorem surviving_fst_subset (prior likelihoods : List (String × ℚ)) (minp u c : ℚ) :
    (surviving prior likelihoods minp u c).map Prod.fst ⊆ prior.map Prod.fst := by
  unfold surviving
  simp only []
  split
  · rw [all_posteriors, map_fst_map_value]
    exact fun x hx => hx
  · intro x hx
    have hsub : (all_posteriors prior likelihoods u c).filter (fun hp => minp ≤ hp.2) ⊆
        all_posteriors prior likelihoods u c := List.filter_subset' _
    have := List.map_subset Prod.fst hsub hx
    rwa [all_posteriors, map_fst_map_value] at this

theorem surviving_ne_nil (prior likelihoods : List (String × ℚ)) (minp u c : ℚ)
    (hne : prior ≠ []) : surviving prior likelihoods minp u c ≠ [] := by
  unfold surviving
  simp only []
  split
  · simpa [all_posteriors] using hne
  · assumption

/-- C1: on the spec's degenerate input (`prior = {A:1/2, B:1/2}`,
`likelihoods = {A:0, B:0}`, `min_probability = 1/10`, `uniform_likelihood = 1/2`,
`estimator_confidence = 1`) every unnormalised posterior is `0`, the pruning
filter empties the set and the code does fall back to the full unpruned set —
but that set sums to `0`, so the normalising division raises
`ZeroDivisionError` (`none`) instead of returning a non-empty belief state as
the claim and the spec require. -/
theorem calculate_posterior_degenerate_raises :
    surviving [("A", (1:ℚ)/2), ("B", 1/2)] [("A", 0), ("B", 0)] (1/10) (1/2) 1 =
      all_posteriors [("A", (1:ℚ)/2), ("B", 1/2)] [("A", 0), ("B", 0)] (1/2) 1 ∧
    all_posteriors [("A", (1:ℚ)/2), ("B", 1/2)] [("A", 0), ("B", 0)] (1/2) 1 =
      [("A", 0), ("B", 0)] ∧
    calculate_posterior [("A", (1:ℚ)/2), ("B", 1/2)] [("A", 0), ("B", 0)] (1/10) (1/2) 1 =
      none := by
  refine ⟨?_, ?_, ?_⟩ <;>
    norm_num +decide [calculate_posterior, surviving, all_posteriors, blended, dict_get]

/-- C2: whenever `calculate_posterior` returns (no `ZeroDivisionError`) on a
non-empty prior, the posterior is non-empty, its keys are a subset of the
prior's keys, its values sum to exactly `1`, and the returned marginal is the
sum of the surviving (or fallback) unnormalised posteriors, which are exactly
`prior[h] * blended(h)`. -/
theorem calculate_posterior_sound (prior likelihoods : List (String × ℚ))
    (minp u c : ℚ) (p : List (String × ℚ)) (m : ℚ)
    (hne : prior ≠ [])
    (hres : calculate_posterior prior likelihoods minp u c = some (p, m)) :
    p ≠ [] ∧
    p.map Prod.fst ⊆ prior.map Prod.fst ∧
    (p.map Prod.snd).sum = 1 ∧
    m = ((surviving prior likelihoods minp u c).map Prod.snd).sum ∧
    all_posteriors prior likelihoods u c =
      prior.map (fun hp => (hp.1, hp.2 * blended likelihoods u c hp.1)) := by
  unfold calculate_posterior at hres
  simp only [] at hres
  split at hres
  · exact absurd hres (by simp)
  · rename_i hm
    injection hres with hres
    injection hres with hp hmm
    subst hp
    subst hmm
    refine ⟨?_, ?_, ?_, rfl, rfl⟩
    · simpa using surviving_ne_nil prior likelihoods minp u c hne
    · rw [map_fst_map_value]
      exact surviving_fst_subset prior likelihoods minp u c
    · rw [sum_map_snd_div, div_self hm]

/-- Witness for C2 at a concrete input. -/
theorem calculate_posterior_sound_witness :
    ([("A", (1:ℚ)/2), ("B", 1/2)] : List (String × ℚ)) ≠ [] ∧
    (([("A", (9:ℚ)/10), ("B", 1/10)] : List (String × ℚ)) ≠ [] ∧
      [("A", (9:ℚ)/10), ("B", 1/10)].map Prod.fst ⊆
        [("A", (1:ℚ)/2), ("B", 1/2)].map Prod.fst ∧
      ([("A", (9:ℚ)/10), ("B", 1/10)].map Prod.snd).sum = 1 ∧
      (1:ℚ)/2 = ((surviving [("A", 1/2), ("B", 1/2)] [("A", 9/10), ("B", 1/10)]
        (1/100) (1/2) 1).map Prod.snd).sum ∧
      all_posteriors [("A", 1/2), ("B", 1/2)] [("A", 9/10), ("B", 1/10)] (1/2) 1 =
        [("A", (1:ℚ)/2), ("B", 1/2)].map
          (fun hp => (hp.1, hp.2 * blended [("A", 9/10), ("B", 1/10)] (1/2) 1 hp.1))) :=
  ⟨by decide,
    calculate_posterior_sound [("A", 1/2), ("B", 1/2)] [("A", 9/10), ("B", 1/10)]
      (1/100) (1/2) 1 [("A", 9/10), ("B", 1/10)] (1/2) (by decide)
      (by norm_num +decide [calculate_posterior, surviving, all_posteriors, blended, dict_get])⟩

/-- C4 counterexample: re-running `calculate_posterior` on its own output with the
same likelihoods and parameters can prune further. With
`prior = {A:1/2, B:1/2}`, `likelihoods = {A:1, B:11/50}`, `min_probability = 1/10`,
the first run keeps both hypotheses, but the second run drops `B`
(its new unnormalised posterior `(11/61)*(11/50) = 121/3050 < 1/10`), so the second
key set is a proper subset of the first — the claim as stated is false. -/
theorem calculate_posterior_not_idempotent :
    calculate_posterior [("A", (1:ℚ)/2), ("B", 1/2)] [("A", 1), ("B", 11/50)]
      (1/10) (1/2) 1 = some ([("A", 50/61), ("B", 11/61)], 61/100) ∧
    calculate_posterior [("A", (50:ℚ)/61), ("B", 11/61)] [("A", 1), ("B", 11/50)]
      (1/10) (1/2) 1 = some ([("A", 1)], 50/61) ∧
    ([("A", (1:ℚ))].map Prod.fst ≠
      [("A", (50:ℚ)/61), ("B", 11/61)].map Prod.fst) := by
  refine ⟨?_, ?_, by decide⟩ <;>
    norm_num +decide [calculate_posterior, surviving, all_posteriors, blended, dict_get]

theorem sum_pos_of_mem_pos (l : List ℚ) (hne : l ≠ [])
    (hpos : ∀ x ∈ l, 0 < x) : 0 < l.sum := by
  induction l with
  | nil => exact absurd rfl hne
  | cons a t ih =>
    rcases t with _ | ⟨b, t'⟩
    · simpa using hpos a (by simp)
    · have ha : 0 < a := hpos a (by simp)
      have ht : 0 < (b :: t').sum := ih (by simp) (fun x hx => hpos x (by simp [hx]))
      simpa using add_pos ha ht

/-- C4 amended: a second run of `calculate_posterior` on its own output removes
no hypothesis provided the first run's pruning filter was non-empty,
`min_probability` is positive, and every surviving hypothesis's blended
likelihood is at least the first run's marginal; in that case the second key set
equals the first. (In general a second run reweights again and can prune more,
as `calculate_posterior_not_idempotent` shows.) -/
theorem calculate_posterior_prune_stable (prior likelihoods : List (String × ℚ))
    (minp u c : ℚ) (p₁ : List (String × ℚ)) (m₁ : ℚ)
    (hminp : 0 < minp)
    (hfilter : (all_posteriors prior likelihoods u c).filter
      (fun hp => minp ≤ hp.2) ≠ [])
    (hres : calculate_posterior prior likelihoods minp u c = some (p₁, m₁))
    (hblend : ∀ h ∈ p₁.map Prod.fst, m₁ ≤ blended likelihoods u c h) :
    ∃ p₂ m₂, calculate_posterior p₁ likelihoods minp u c = some (p₂, m₂) ∧
      p₂.map Prod.fst = p₁.map Prod.fst := by
  classical
  set f₁ := (all_posteriors prior likelihoods u c).filter (fun hp => minp ≤ hp.2) with hf₁
  have hsurv : surviving prior likelihoods minp u c = f₁ := by
    unfold surviving
    simp only []
    rw [← hf₁]
    exact if_neg hfilter
  -- every surviving unnormalised value is at least minp, hence positive
  have hvals : ∀ hp ∈ f₁, minp ≤ hp.2 := by
    intro hp hmem
    have := List.of_mem_filter hmem
    simpa using this
  have hvalspos : ∀ hp ∈ f₁, 0 < hp.2 := fun hp hmem => lt_of_lt_of_le hminp (hvals hp hmem)
  unfold calculate_posterior at hres
  simp only [] at hres
  rw [hsurv] at hres
  split at hres
  · exact absurd hres (by simp)
  · rename_i hm₁ne
    injection hres with hres
    injection hres with hp₁ hm₁
    have hm₁pos : 0 < (f₁.map Prod.snd).sum := by
      refine sum_pos_of_mem_pos _ ?_ ?_
      · simpa using hfilter
      · intro x hx
        rcases List.mem_map.mp hx with ⟨hp, hmem, hxeq⟩
        subst hxeq
        exact hvalspos hp hmem
    subst hp₁
    subst hm₁
    set m₁ := (f₁.map Prod.snd).sum with hm₁def
    set p₁ := f₁.map (fun hp => (hp.1, hp.2 / m₁)) with hp₁def
    -- the all_posteriors of the second run
    have hall₂ : all_posteriors p₁ likelihoods u c =
        f₁.map (fun hp => (hp.1, hp.2 / m₁ * blended likelihoods u c hp.1)) := by
      rw [hp₁def]
      unfold all_posteriors
      rw [List.map_map]
      rfl
    -- each second-run unnormalised value is still at least minp
    have hkeep : ∀ hp ∈ all_posteriors p₁ likelihoods u c, minp ≤ hp.2 := by
      intro hp hmem
      rw [hall₂] at hmem
      rcases List.mem_map.mp hmem with ⟨q, hqmem, hqeq⟩
      subst hqeq
      have hb : m₁ ≤ blended likelihoods u c q.1 := by
        refine hblend q.1 ?_
        rw [hp₁def, map_fst_map_value]
        exact List.mem_map.mpr ⟨q, hqmem, rfl⟩
      have hq2 : 0 < q.2 := hvalspos q hqmem
      have hdivpos : 0 < q.2 / m₁ := div_pos hq2 hm₁pos
      calc minp ≤ q.2 := hvals q hqmem
        _ = q.2 / m₁ * m₁ := by field_simp
        _ ≤ q.2 / m₁ * blended likelihoods u c q.1 :=
            mul_le_mul_of_nonneg_left hb (le_of_lt hdivpos)
    have hap₂ne : all_posteriors p₁ likelihoods u c ≠ [] := by
      rw [hall₂]
      simpa using (by simpa using hfilter : f₁ ≠ [])
    have hfilter₂ : (all_posteriors p₁ likelihoods u c).filter
        (fun hp => minp ≤ hp.2) = all_posteriors p₁ likelihoods u c := by
      rw [List.filter_eq_self]
      intro a ha
      simpa using hkeep a ha
    have hsurv₂ : surviving p₁ likelihoods minp u c = all_posteriors p₁ likelihoods u c := by
      unfold surviving
      simp only []
      rw [hfilter₂]
      exact if_neg hap₂ne
    have hm₂pos : 0 < ((all_posteriors p₁ likelihoods u c).map Prod.snd).sum := by
      refine sum_pos_of_mem_pos _ (by simpa using hap₂ne) ?_
      intro x hx
      rcases List.mem_map.mp hx with ⟨hp, hmem, hxeq⟩
      subst hxeq
      exact lt_of_lt_of_le hminp (hkeep hp hmem)
    refine ⟨(all_posteriors p₁ likelihoods u c).map
        (fun hp => (hp.1, hp.2 / ((all_posteriors p₁ likelihoods u c).map Prod.snd).sum)),
      ((all_posteriors p₁ likelihoods u c).map Prod.snd).sum, ?_, ?_⟩
    · unfold calculate_posterior
      simp only []
      rw [hsurv₂]
      exact if_neg (ne_of_gt hm₂pos)
    · rw [map_fst_map_value, hall₂, map_fst_map_value, hp₁def, map_fst_map_value]

/-- Witness for C4's amended theorem at a concrete input (all blended
likelihoods equal to `1`, i.e. at least the first marginal `1`). -/
theorem calculate_posterior_prune_stable_witness :
    ∃ p₂ m₂, calculate_posterior [("A", (1:ℚ)/2), ("B", 1/2)] [("A", 1), ("B", 1)]
      (1/10) (1/2) 1 = some (p₂, m₂) ∧
      p₂.map Prod.fst = [("A", (1:ℚ)/2), ("B", 1/2)].map Prod.fst := by
  have h := calculate_posterior_prune_stable [("A", (1:ℚ)/2), ("B", 1/2)]
    [("A", 1), ("B", 1)] (1/10) (1/2) 1 [("A", 1/2), ("B", 1/2)] 1
    (by norm_num)
    (by norm_num +decide [all_posteriors, blended, dict_get])
    (by norm_num +decide [calculate_posterior, surviving, all_posteriors, blended, dict_get])
    (by norm_num +decide [blended, dict_get])
  simpa using h

/-- C7: `immediate_reward` on the root evidence node (empty ancestor chain,
`evidence.parent is None`) fails its assertion instead of returning a value,
and `expected_reward` on a question node with zero evidence children fails its
assertion instead of returning a value. -/
theorem reward_preconditions_fatal {α : Type} [LinearOrderedField α] (log2 : α → α)
    (sharp : α) (evidence pe : EvidenceNode α) (t : String) (a : List String)
    (anc : Ancestry α) :
    immediate_reward log2 sharp evidence [] = none ∧
    expected_reward log2 sharp (QuestionNode.mk t a []) pe anc = none := by
  constructor
  · rfl
  · simp [expected_reward]

/-- C8: `get_conversation_depth` is `0` at the root and `1 +` the grandparent's
depth for non-root evidence nodes — on the chain ROOT to Q1 to E1 to Q2 to E2 it
reports 0, 1, 2 — and `is_terminal` holds exactly when the conversation depth
reaches `max_conversation_depth` or some belief-state probability reaches
`confidence_threshold`. -/
theorem conversation_depth_and_terminal :
    (∀ (α : Type) (q1 q2 : QuestionNode α) (root e1 : EvidenceNode α),
      get_conversation_depth ([] : Ancestry α) = 0 ∧
      get_conversation_depth [(q1, root)] = 1 ∧
      get_conversation_depth [(q2, e1), (q1, root)] = 2) ∧
    (∀ (node : EvidenceNode ℚ) (anc : Ancestry ℚ) (task : TreeTask),
      is_terminal node anc task = true ↔
        task.max_conversation_depth ≤ get_conversation_depth anc ∨
          ∃ hp ∈ node.belief_state, task.confidence_threshold ≤ hp.2) := by
  constructor
  · intro α q1 q2 root e1
    refine ⟨rfl, rfl, rfl⟩
  · intro node anc task
    simp [is_terminal]

theorem evidence_contribution_sum_eq {α : Type} [LinearOrderedField α] (log2 : α → α)
    (sharp : α) (q : QuestionNode α) (pe : EvidenceNode α) (anc : Ancestry α)
    (cf : EvidenceNode α → α) :
    ∀ l : List (EvidenceNode α),
      (∀ ev ∈ l, contribution log2 sharp q pe anc ev = some (cf ev)) →
      evidence_contribution_sum log2 sharp q pe anc l =
        some ((l.map fun ev => ev.marginal_likelihood * cf ev).sum) := by
  intro l
  induction l with
  | nil => intro _; simp [evidence_contribution_sum]
  | cons e rest ih =>
    intro h
    have he := h e (by simp)
    have hrest := ih (fun ev hev => h ev (by simp [hev]))
    simp [evidence_contribution_sum, he, hrest]

/-- C3: for a question with at least one evidence child, `expected_reward` is
the marginal-likelihood-weighted sum of the children's contributions, where a
child's contribution is `accumulated_reward` when it has no question children
and the mean of `expected_reward` over its question children otherwise; on the
fixed fully-expanded two-level dyadic sample tree it equals the hand-computed
weighted sum `3/2` for every sharpness constant. -/
theorem expected_reward_weighted_sum {α : Type} [LinearOrderedField α] (log2 : α → α)
    (sharp : α) (t : String) (a : List String) (e : EvidenceNode α)
    (es : List (EvidenceNode α)) (pe : EvidenceNode α) (anc : Ancestry α)
    (cf : EvidenceNode α → α)
    (hc : ∀ ev ∈ e :: es,
      contribution log2 sharp (QuestionNode.mk t a (e :: es)) pe anc ev = some (cf ev)) :
    expected_reward log2 sharp (QuestionNode.mk t a (e :: es)) pe anc =
      some (((e :: es).map fun ev => ev.marginal_likelihood * cf ev).sum) ∧
    (∀ (ans : String) (bs : List (String × α)) (m : α),
      contribution log2 sharp (QuestionNode.mk t a (e :: es)) pe anc
          (EvidenceNode.mk ans bs m []) =
        accumulated_reward log2 sharp (EvidenceNode.mk ans bs m [])
          ((QuestionNode.mk t a (e :: es), pe) :: anc)) ∧
    (∀ (ans : String) (bs : List (String × α)) (m : α) (fq : QuestionNode α)
        (fqs : List (QuestionNode α)) (s : α),
      future_reward_sum log2 sharp (EvidenceNode.mk ans bs m (fq :: fqs))
          ((QuestionNode.mk t a (e :: es), pe) :: anc) (fq :: fqs) = some s →
      contribution log2 sharp (QuestionNode.mk t a (e :: es)) pe anc
          (EvidenceNode.mk ans bs m (fq :: fqs)) =
        some (s / ((fq :: fqs).length : α))) ∧
    (∀ s : ℚ, expected_reward dyadic_log2 s sample_Q1 sample_root [] = some (3/2)) := by
  refine ⟨?_, ?_, ?_, ?_⟩
  · rw [expected_reward]
    exact evidence_contribution_sum_eq log2 sharp _ pe anc cf (e :: es) hc
  · intro ans bs m
    rw [contribution]
  · intro ans bs m fq fqs s hs
    rw [contribution, hs]
  · intro s
    norm_num [expected_reward, evidence_contribution_sum, contribution, future_reward_sum,
      accumulated_reward, immediate_reward, specificity_penalty, information_gain,
      shannon_entropy, entropy_terms, dyadic_log2, sample_Q1, sample_root, sample_Eyes,
      sample_Eno, sample_Q2, sample_E2y, sample_E2n, EvidenceNode.marginal_likelihood,
      EvidenceNode.belief_state, QuestionNode.children, EvidenceNode.children]

/-- Witness for C3 on a one-question, one-leaf-child tree with the zero `log2`
table: the only contribution is `0`, so the weighted sum is `0`. -/
theorem expected_reward_weighted_sum_witness :
    expected_reward (fun _ : ℚ => 0) 0
        (QuestionNode.mk "Q" ["Yes"] [EvidenceNode.mk "Yes" [("A", 1)] 1 []])
        (EvidenceNode.mk "ROOT" [("A", 1)] 1 []) [] =
      some (([EvidenceNode.mk "Yes" [("A", (1:ℚ))] 1 []].map
        fun ev => ev.marginal_likelihood * (fun _ : EvidenceNode ℚ => (0:ℚ)) ev).sum) :=
  (expected_reward_weighted_sum (fun _ : ℚ => 0) 0 "Q" ["Yes"]
    (EvidenceNode.mk "Yes" [("A", 1)] 1 []) [] (EvidenceNode.mk "ROOT" [("A", 1)] 1 [])
    [] (fun _ => 0)
    (by
      intro ev hev
      have hev' : ev = EvidenceNode.mk "Yes" [("A", (1:ℚ))] 1 [] := by simpa using hev
      subst hev'
      norm_num [contribution, accumulated_reward, immediate_reward, specificity_penalty,
        information_gain, shannon_entropy, entropy_terms, EvidenceNode.marginal_likelihood,
        EvidenceNode.belief_state, QuestionNode.children, EvidenceNode.children])).1

theorem entropy_term_neg {p : ℝ} (h0 : 0 < p) (h1 : p < 1) : p * Real.logb 2 p < 0 :=
  mul_neg_of_pos_of_neg h0 (Real.logb_neg one_lt_two h0 h1)

theorem entropy_terms_nonpos (l : List ℝ) (hle : ∀ p ∈ l, p ≤ 1) :
    entropy_terms (Real.logb 2) l ≤ 0 := by
  induction l with
  | nil => simp [entropy_terms]
  | cons p rest ih =>
    have hrest := ih fun x hx => hle x (by simp [hx])
    have hterm : (if 0 < p then p * Real.logb 2 p else 0) ≤ 0 := by
      split
      · rename_i hp
        have hlb : Real.logb 2 p ≤ 0 :=
          Real.logb_nonpos one_lt_two hp.le (hle p (by simp))
        nlinarith
      · exact le_refl 0
    simp only [entropy_terms]
    linarith

theorem logb_two_two : Real.logb 2 2 = 1 := Real.logb_self_eq_one one_lt_two

theorem logb_two_half : Real.logb 2 ((1:ℝ)/2) = -1 := by
  rw [show (1:ℝ)/2 = (2:ℝ)⁻¹ by norm_num, Real.logb_inv, logb_two_two]

theorem logb_two_eight : Real.logb 2 (8:ℝ) = 3 := by
  rw [show (8:ℝ) = 2 ^ (3:ℕ) by norm_num, Real.logb_pow, logb_two_two]
  norm_num

theorem logb_two_sixteenth : Real.logb 2 ((1:ℝ)/16) = -4 := by
  rw [show (1:ℝ)/16 = (16:ℝ)⁻¹ by norm_num, Real.logb_inv,
    show (16:ℝ) = 2 ^ (4:ℕ) by norm_num, Real.logb_pow, logb_two_two]
  norm_num

theorem logb_two_seven_gt : (17:ℝ)/7 < Real.logb 2 7 := by
  rw [Real.lt_logb_iff_rpow_lt one_lt_two (by norm_num : (0:ℝ) < 7)]
  refine lt_of_pow_lt_pow_left₀ 7 (by norm_num) ?_
  have hcalc : ((2:ℝ) ^ ((17:ℝ)/7)) ^ (7:ℕ) = (2:ℝ) ^ (17:ℕ) := by
    rw [← Real.rpow_natCast ((2:ℝ) ^ ((17:ℝ)/7)) 7,
      ← Real.rpow_mul (by norm_num : (0:ℝ) ≤ 2),
      show ((17:ℝ)/7) * ((7:ℕ):ℝ) = ((17:ℕ):ℝ) by push_cast; ring,
      Real.rpow_natCast]
  rw [hcalc]
  norm_num

/-- C5 counterexample: with `prior = {A:7/8, B:1/16, C:1/16}` and
`posterior = {B:1/2, C:1/2}` the posterior's nonzero support is a proper subset
of the prior's key set, yet `information_gain` is negative (the prior is more
concentrated than the posterior), so the claimed strict positivity fails. -/
theorem information_gain_not_positive_on_concentration :
    (([("B", (1:ℝ)/2), ("C", 1/2)].filter fun hp => hp.2 ≠ 0).map Prod.fst ⊆
        [("A", (7:ℝ)/8), ("B", 1/16), ("C", 1/16)].map Prod.fst) ∧
    ("A" ∈ [("A", (7:ℝ)/8), ("B", 1/16), ("C", 1/16)].map Prod.fst ∧
      "A" ∉ (([("B", (1:ℝ)/2), ("C", 1/2)].filter fun hp => hp.2 ≠ 0).map Prod.fst)) ∧
    information_gain (Real.logb 2) [("A", (7:ℝ)/8), ("B", 1/16), ("C", 1/16)]
      [("B", (1:ℝ)/2), ("C", 1/2)] < 0 := by
  refine ⟨?_, ⟨?_, ?_⟩, ?_⟩
  · norm_num
  · norm_num
  · norm_num
    exact ⟨by decide, by decide⟩
  · have h78 : Real.logb 2 ((7:ℝ)/8) = Real.logb 2 7 - 3 := by
      rw [Real.logb_div (by norm_num) (by norm_num), logb_two_eight]
    have hL := logb_two_seven_gt
    simp only [information_gain, shannon_entropy, List.map_cons, List.map_nil,
      entropy_terms]
    norm_num [h78, logb_two_sixteenth, logb_two_half]
    linarith

/-- C5 corrected: `information_gain` is `0` whenever posterior equals prior
(for any `log2` table), and it is strictly positive when the posterior puts all
its mass on a single hypothesis while the prior has at least two hypotheses
with probability strictly between 0 and 1 and no probability above 1.
Concentration onto fewer hypotheses alone does not make it positive. -/
theorem information_gain_zero_and_point_mass {α : Type} [LinearOrderedField α]
    (log2 : α → α) (bs : List (String × α))
    (h₁ h₂ k : String) (p₁ p₂ : ℝ) (rest : List (String × ℝ))
    (hp₁ : 0 < p₁) (hp₁' : p₁ < 1) (hp₂ : 0 < p₂) (hp₂' : p₂ < 1)
    (hrest : ∀ q ∈ rest, q.2 ≤ 1) :
    information_gain log2 bs bs = 0 ∧
    0 < information_gain (Real.logb 2) ((h₁, p₁) :: (h₂, p₂) :: rest) [(k, 1)] := by
  constructor
  · simp [information_gain]
  · have hterm1 := entropy_term_neg hp₁ hp₁'
    have hterm2 := entropy_term_neg hp₂ hp₂'
    have hrest' : entropy_terms (Real.logb 2) (rest.map Prod.snd) ≤ 0 := by
      refine entropy_terms_nonpos _ ?_
      intro x hx
      rcases List.mem_map.mp hx with ⟨q, hq, hxq⟩
      subst hxq
      exact hrest q hq
    simp only [information_gain, shannon_entropy, List.map_cons, List.map_nil,
      entropy_terms]
    rw [if_pos hp₁, if_pos hp₂, if_pos one_pos]
    norm_num [Real.logb_one]
    linarith

/-- Witness for C5's corrected theorem: uniform prior over two hypotheses,
point-mass posterior. -/
theorem information_gain_zero_and_point_mass_witness :
    information_gain (fun q : ℚ => q) [("X", (1:ℚ))] [("X", (1:ℚ))] = 0 ∧
    0 < information_gain (Real.logb 2) [("A", (1:ℝ)/2), ("B", 1/2)] [("C", 1)] := by
  have h := information_gain_zero_and_point_mass (fun q : ℚ => q) [("X", (1:ℚ))]
    "A" "B" "C" (1/2) (1/2) [] (by norm_num) (by norm_num) (by norm_num) (by norm_num)
    (by intro q hq; simp at hq)
  exact ⟨h.1, h.2⟩

theorem alist_find_insert {β : Type} (l : List (String × β)) (key : String) (v : β) :
    alist_find (alist_insert l key v) key = some v := by
  induction l with
  | nil => simp [alist_insert, alist_find]
  | cons p rest ih =>
    rcases p with ⟨k, w⟩
    by_cases hk : key = k
    · simp [alist_insert, alist_find, hk]
    · simp [alist_insert, alist_find, hk, ih]

theorem alist_insert_ne_nil {β : Type} (l : List (String × β)) (key : String) (v : β) :
    alist_insert l key v ≠ [] := by
  cases l with
  | nil => simp [alist_insert]
  | cons p rest =>
    rcases p with ⟨k, w⟩
    by_cases hk : key = k <;> simp [alist_insert, hk]

theorem query_aux_le {V : Type} (dist : V → V → ℚ) (e : V) :
    ∀ (vs : List V) (i : Nat) (best : Nat × ℚ),
      (query_aux dist e vs i best).2 ≤ best.2 ∧
        ∀ v ∈ vs, (query_aux dist e vs i best).2 ≤ dist e v := by
  intro vs
  induction vs with
  | nil =>
    intro i best
    exact ⟨le_refl _, by simp⟩
  | cons v vs ih =>
    intro i best
    simp only [query_aux]
    have h := ih (i + 1) (if dist e v < best.2 then (i, dist e v) else best)
    have hb : (if dist e v < best.2 then (i, dist e v) else best).2 ≤ best.2 := by
      split
      · rename_i hlt; exact le_of_lt hlt
      · exact le_refl _
    have hv : (if dist e v < best.2 then (i, dist e v) else best).2 ≤ dist e v := by
      split
      · exact le_refl _
      · rename_i hlt; exact le_of_not_lt hlt
    refine ⟨h.1.trans hb, ?_⟩
    intro u hu
    rcases List.mem_cons.mp hu with hu | hu
    · subst hu
      exact h.1.trans hv
    · exact h.2 u hu

theorem query_aux_append_min {V : Type} (dist : V → V → ℚ) (e w : V) :
    ∀ (vs : List V) (i : Nat) (best : Nat × ℚ),
      dist e w < best.2 →
      (∀ u ∈ vs, dist e w < dist e u) →
      query_aux dist e (vs ++ [w]) i best = (i + vs.length, dist e w) := by
  intro vs
  induction vs with
  | nil =>
    intro i best hb _
    simp [query_aux, hb]
  | cons u vs ih =>
    intro i best hb hall
    have hu : dist e w < dist e u := hall u (by simp)
    simp only [List.cons_append, query_aux, List.append_eq]
    rw [ih (i + 1) (if dist e u < best.2 then (i, dist e u) else best) ?_
      (fun x hx => hall x (by simp [hx]))]
    · have harith : i + 1 + vs.length = i + (vs.length + 1) := by omega
      simp [harith]
    · split
      · simpa using hu
      · simpa using hb

theorem query_nearest_min {V : Type} (dist : V → V → ℚ) (e : V) (l : List V)
    (n : Nat) (d : ℚ) (h : query_nearest dist e l = some (n, d)) :
    ∀ v ∈ l, d ≤ dist e v := by
  cases l with
  | nil => simp [query_nearest] at h
  | cons v vs =>
    simp only [query_nearest, Option.some.injEq] at h
    intro u hu
    have hq := query_aux_le dist e vs 1 (0, dist e v)
    rcases List.mem_cons.mp hu with hu | hu
    · subst hu
      have h1 := hq.1
      rw [h] at h1
      simpa using h1
    · have h2 := hq.2 u hu
      rw [h] at h2
      simpa using h2

theorem query_nearest_append {V : Type} (dist : V → V → ℚ) (e w : V) (l : List V)
    (hall : ∀ u ∈ l, dist e w < dist e u) :
    query_nearest dist e (l ++ [w]) = some (l.length, dist e w) := by
  cases l with
  | nil => simp [query_nearest, query_aux]
  | cons v vs =>
    simp only [List.cons_append, query_nearest, Option.some.injEq]
    rw [query_aux_append_min dist e w vs 1 (0, dist e v)
      (by simpa using hall v (by simp)) (fun x hx => hall x (by simp [hx]))]
    simp [Nat.add_comm]

/-- C6: `get_cluster` reuses the nearest neighbor's existing cluster and bumps
the question's occurrence count whenever its similarity `1 - distance` reaches
the threshold, and otherwise registers a fresh empty cluster under the next
sequential id; consequently, with threshold `1` and bit-identical embeddings
(`dist v v = 0`), two consecutive calls resolve to the same cluster id, and the
question phase never requests likelihoods for a hypothesis already cached in
the cluster (it is excluded from `missing_hypotheses`). -/
theorem get_cluster_reuse :
    (∀ (V : Type) (encode : String → V) (dist : V → V → ℚ)
        (qc : QuestionClustering V) (question : String) (n : Nat) (d : ℚ) (c : Cluster),
      1 ≤ qc.clusters.length →
      query_nearest dist (encode question) qc.index = some (n, d) →
      qc.threshold ≤ 1 - d →
      alist_find qc.clusters (toString n) = some c →
      get_cluster encode dist qc question =
        .ok (toString n, QuestionClustering.mk qc.index
          (alist_insert qc.clusters (toString n) (bump_question c question))
          qc.threshold)) ∧
    (∀ (V : Type) (encode : String → V) (dist : V → V → ℚ)
        (qc : QuestionClustering V) (question : String),
      (¬ 1 ≤ qc.clusters.length ∨
        ∃ n d, query_nearest dist (encode question) qc.index = some (n, d) ∧
          ¬ qc.threshold ≤ 1 - d) →
      get_cluster encode dist qc question =
        .ok (toString qc.index.length, QuestionClustering.mk
          (qc.index ++ [encode question])
          (alist_insert qc.clusters (toString qc.index.length)
            (Cluster.mk [(question, 1)] []))
          qc.threshold)) ∧
    (∀ (V : Type) (encode : String → V) (dist : V → V → ℚ)
        (qc : QuestionClustering V) (q1 q2 i₁ : String) (qc₁ : QuestionClustering V),
      (∀ v, dist v v = 0) →
      qc.threshold = 1 →
      qc.clusters.length = qc.index.length →
      encode q1 = encode q2 →
      get_cluster encode dist qc q1 = .ok (i₁, qc₁) →
      ∃ qc₂, get_cluster encode dist qc₁ q2 = .ok (i₁, qc₂)) ∧
    (∀ (parent_belief : List (String × ℚ)) (c : Cluster) (h : String),
      h ∈ c.get_hypotheses → h ∉ missing_hypotheses parent_belief c) := by
  have hfound : ∀ (V : Type) (encode : String → V) (dist : V → V → ℚ)
      (qc : QuestionClustering V) (question : String) (n : Nat) (d : ℚ) (c : Cluster),
      1 ≤ qc.clusters.length →
      query_nearest dist (encode question) qc.index = some (n, d) →
      qc.threshold ≤ 1 - d →
      alist_find qc.clusters (toString n) = some c →
      get_cluster encode dist qc question =
        .ok (toString n, QuestionClustering.mk qc.index
          (alist_insert qc.clusters (toString n) (bump_question c question))
          qc.threshold) := by
    intro V encode dist qc question n d c hlen hq hthr hfind
    simp only [get_cluster]
    rw [if_pos hlen, hq]
    simp only []
    rw [if_pos hthr, hfind]
  have hcreate : ∀ (V : Type) (encode : String → V) (dist : V → V → ℚ)
      (qc : QuestionClustering V) (question : String),
      (¬ 1 ≤ qc.clusters.length ∨
        ∃ n d, query_nearest dist (encode question) qc.index = some (n, d) ∧
          ¬ qc.threshold ≤ 1 - d) →
      get_cluster encode dist qc question =
        .ok (toString qc.index.length, QuestionClustering.mk
          (qc.index ++ [encode question])
          (alist_insert qc.clusters (toString qc.index.length)
            (Cluster.mk [(question, 1)] []))
          qc.threshold) := by
    intro V encode dist qc question hcase
    by_cases hlen : 1 ≤ qc.clusters.length
    · rcases hcase with h | ⟨n, d, hq, hthr⟩
      · exact absurd hlen h
      · simp only [get_cluster]
        rw [if_pos hlen, hq]
        simp only []
        rw [if_neg hthr]
    · simp only [get_cluster]
      rw [if_neg hlen]
  refine ⟨hfound, hcreate, ?_, ?_⟩
  · intro V encode dist qc q1 q2 i₁ qc₁ hd0 hthr hlen henc h1
    by_cases hlen1 : 1 ≤ qc.clusters.length
    · -- a nearest neighbor exists, since the index is as long as the cluster map
      rcases hidx : qc.index with _ | ⟨v, vs⟩
      · rw [hidx] at hlen
        simp only [List.length_nil] at hlen
        omega
      · have hq : query_nearest dist (encode q1) qc.index =
            some (query_aux dist (encode q1) vs 1 (0, dist (encode q1) v)) := by
          rw [hidx]
          rfl
        rcases hp : query_aux dist (encode q1) vs 1 (0, dist (encode q1) v) with ⟨n, d⟩
        rw [hp] at hq
        by_cases hsim : qc.threshold ≤ 1 - d
        · -- first call reused an existing cluster
          simp only [get_cluster] at h1
          rw [if_pos hlen1, hq] at h1
          simp only [] at h1
          rw [if_pos hsim] at h1
          rcases hfind : alist_find qc.clusters (toString n) with _ | c
          · rw [hfind] at h1
            exact absurd h1 (by simp)
          · rw [hfind] at h1
            simp only [Except.ok.injEq, Prod.mk.injEq] at h1
            rcases h1 with ⟨hi, hqc⟩
            have happ := hfound V encode dist qc₁ q2 n d (bump_question c q1)
              (by
                rw [← hqc]
                simpa using List.length_pos.mpr
                  (alist_insert_ne_nil qc.clusters (toString n) (bump_question c q1)))
              (by rw [← hqc, ← henc]; exact hq)
              (by rw [← hqc]; exact hsim)
              (by
                rw [← hqc]
                simpa using alist_find_insert qc.clusters (toString n) (bump_question c q1))
            rw [← hi]
            exact ⟨_, happ⟩
        · -- first call created a fresh cluster; the new vector is its own
          -- nearest neighbor at distance 0 in the second call
          have h1' := hcreate V encode dist qc q1 (Or.inr ⟨n, d, hq, hsim⟩)
          rw [h1'] at h1
          simp only [Except.ok.injEq, Prod.mk.injEq] at h1
          rcases h1 with ⟨hi, hqc⟩
          have hdpos : 0 < d := by
            rw [hthr] at hsim
            by_contra hdle
            push_neg at hdle
            exact hsim (by linarith)
          have hmin := query_nearest_min dist (encode q1) qc.index n d hq
          have hzero : dist (encode q2) (encode q1) = 0 := by
            rw [← henc, hd0]
          have hq2 : query_nearest dist (encode q2) (qc.index ++ [encode q1]) =
              some (qc.index.length, 0) := by
            have happ := query_nearest_append dist (encode q2) (encode q1) qc.index ?_
            · rw [hzero] at happ
              exact happ
            · intro u hu
              rw [hzero, ← henc]
              exact lt_of_lt_of_le hdpos (hmin u hu)
          have happ := hfound V encode dist qc₁ q2 qc.index.length 0
            (Cluster.mk [(q1, 1)] [])
            (by
              rw [← hqc]
              simpa using List.length_pos.mpr
                (alist_insert_ne_nil qc.clusters (toString qc.index.length)
                  (Cluster.mk [(q1, 1)] [])))
            (by rw [← hqc]; exact hq2)
            (by rw [← hqc, hthr]; norm_num)
            (by
              rw [← hqc]
              simpa using alist_find_insert qc.clusters (toString qc.index.length)
                (Cluster.mk [(q1, 1)] []))
          rw [← hi]
          exact ⟨_, happ⟩
    · -- no clusters yet: both the cluster map and the index are empty
      have hidx : qc.index = [] := by
        have : qc.clusters.length = 0 := by omega
        rw [this] at hlen
        exact List.length_eq_zero.mp hlen.symm
      have h1' := hcreate V encode dist qc q1 (Or.inl hlen1)
      rw [h1'] at h1
      simp only [Except.ok.injEq, Prod.mk.injEq] at h1
      rcases h1 with ⟨hi, hqc⟩
      have hq2 : query_nearest dist (encode q2) (qc.index ++ [encode q1]) =
          some (qc.index.length, 0) := by
        rw [hidx]
        simp only [List.nil_append, query_nearest, query_aux, List.length_nil]
        rw [← henc, hd0]
      have happ := hfound V encode dist qc₁ q2 qc.index.length 0
        (Cluster.mk [(q1, 1)] [])
        (by
          rw [← hqc]
          simpa using List.length_pos.mpr
            (alist_insert_ne_nil qc.clusters (toString qc.index.length)
              (Cluster.mk [(q1, 1)] [])))
        (by rw [← hqc]; exact hq2)
        (by rw [← hqc, hthr]; norm_num)
        (by
          rw [← hqc]
          simpa using alist_find_insert qc.clusters (toString qc.index.length)
            (Cluster.mk [(q1, 1)] []))
      rw [← hi]
      exact ⟨_, happ⟩
  · intro parent_belief c h hmem hmem2
    rw [missing_hypotheses, List.mem_filter] at hmem2
    have hnot : ¬ h ∈ c.get_hypotheses := by simpa using hmem2.2
    exact hnot hmem

/-- Witness for C6: on a fresh clustering with threshold `1` and bit-identical
(trivial) embeddings, the second call resolves to the cluster id `"0"` created
by the first call. -/
theorem get_cluster_reuse_witness :
    ∃ qc₂, get_cluster (fun _ : String => ()) (fun _ _ => (0:ℚ))
      (QuestionClustering.mk [()] [("0", Cluster.mk [("ping", 1)] [])] 1) "ping" =
      .ok ("0", qc₂) :=
  get_cluster_reuse.2.2.1 Unit (fun _ => ()) (fun _ _ => 0)
    (QuestionClustering.mk [] [] 1) "ping" "ping" "0"
    (QuestionClustering.mk [()] [("0", Cluster.mk [("ping", 1)] [])] 1)
    (fun _ => rfl) rfl rfl rfl (by rfl)

/-- C9: a collaborator exception inside the run loop does not propagate out of
`run_task`: whenever the loop aborts with an error, `run_task` still returns a
`RunRecord` carrying the path visited so far and the belief state of the last
successfully reached node at failure time. -/
theorem run_task_preserves_partial_results {V : Type} (encode : String → V)
    (dist : V → V → ℚ) (log2 : ℚ → ℚ) (task : TreeTask) (sharp minp : ℚ)
    (qc : QuestionClustering V) (fuel : Nat) (bs : List (String × ℚ))
    (e : String) (path : List String) (node : EvidenceNode ℚ)
    (hinit : task.create_initial_belief_state = .ok bs)
    (hloop : run_loop encode dist log2 task sharp minp fuel
      (EvidenceNode.mk "ROOT" bs 1 []) [] qc
      [str_evidence (EvidenceNode.mk "ROOT" bs 1 [])] =
      some (.error (e, path, node))) :
    run_task encode dist log2 task sharp minp qc fuel =
      .ok (some (RunRecord.mk path node.belief_state)) := by
  simp only [run_task, hinit, hloop]

/-- Witness for C9: a task whose question-generation collaborator raises. The
run aborts, and `run_task` still returns the record of the root-only path and
the root belief state. -/
theorem run_task_preserves_partial_results_witness :
    run_task (fun _ : String => ()) (fun _ _ => 0) (fun _ => 0)
      failing_question_task 0 0 (QuestionClustering.mk [] [] 1) 2 =
      .ok (some (RunRecord.mk
        [str_evidence (EvidenceNode.mk "ROOT" [("A", 1/2), ("B", 1/2)] 1 [])]
        (EvidenceNode.mk "ROOT" [("A", (1:ℚ)/2), ("B", 1/2)] 1 []).belief_state)) := by
  have hterm : is_terminal (EvidenceNode.mk "ROOT" [("A", 1/2), ("B", 1/2)] 1 [])
      ([] : Ancestry ℚ) failing_question_task = false := by
    norm_num [is_terminal, get_conversation_depth, failing_question_task,
      EvidenceNode.belief_state]
  have hml : failing_question_task.max_lookahead_depth = 1 := rfl
  have hcq : ∀ x, failing_question_task.create_questions x = .error "boom" :=
    fun _ => rfl
  have hexp : expand_evidence (fun _ : String => ()) (fun _ _ => (0:ℚ))
      failing_question_task 0 2
      (EvidenceNode.mk "ROOT" [("A", 1/2), ("B", 1/2)] 1 []) 0
      (QuestionClustering.mk [] [] 1) [] =
      some (.error "boom") := by
    simp only [expand_evidence, hterm, hml, hcq, Bool.false_or, List.isEmpty_nil,
      if_true, Except.map, decide_eq_true_eq]
    norm_num
  have hloop : run_loop (fun _ : String => ()) (fun _ _ => 0) (fun _ => 0)
      failing_question_task 0 0 2
      (EvidenceNode.mk "ROOT" [("A", 1/2), ("B", 1/2)] 1 []) []
      (QuestionClustering.mk [] [] 1)
      [str_evidence (EvidenceNode.mk "ROOT" [("A", 1/2), ("B", 1/2)] 1 [])] =
      some (.error ("boom",
        [str_evidence (EvidenceNode.mk "ROOT" [("A", 1/2), ("B", 1/2)] 1 [])],
        EvidenceNode.mk "ROOT" [("A", 1/2), ("B", 1/2)] 1 [])) := by
    simp only [run_loop, hterm, Bool.false_eq_true, if_false, hexp]
  exact run_task_preserves_partial_results (fun _ : String => ()) (fun _ _ => 0)
    (fun _ => 0) failing_question_task 0 0 (QuestionClustering.mk [] [] 1) 2
    [("A", 1/2), ("B", 1/2)] "boom"
    [str_evidence (EvidenceNode.mk "ROOT" [("A", 1/2), ("B", 1/2)] 1 [])]
    (EvidenceNode.mk "ROOT" [("A", 1/2), ("B", 1/2)] 1 []) rfl hloop

/-- C10 counterexample: with both the cluster's cached answer set and the
node's own `possible_answers` empty, `expand_questions` raises no
`ZeroDivisionError`: the `1 / len(answers)` expression sits inside the
per-answer loop, which never executes, so the expansion completes and returns
the question node with zero evidence children. -/
theorem expand_questions_empty_answers_no_error :
    expand_questions (fun _ : String => ()) (fun _ _ => 0) empty_answer_task 0 2
      (QuestionNode.mk "Q?" [] []) 0 (QuestionClustering.mk [] [] 1) []
      (EvidenceNode.mk "ROOT" [("A", 1)] 1 []) =
      some (.ok (QuestionNode.mk "Q?" [] [],
        QuestionClustering.mk [()] [("0", Cluster.mk [("Q?", 1)] [("A", [])])] 1)) := by
  have hqp : question_phase (fun _ : String => ()) (fun _ _ => (0:ℚ))
      empty_answer_task 0 "Q?" [] [] (QuestionClustering.mk [] [] 1)
      (EvidenceNode.mk "ROOT" [("A", 1)] 1 []) =
      .ok ([], [],
        QuestionClustering.mk [()] [("0", Cluster.mk [("Q?", 1)] [("A", [])])] 1) :=
    rfl
  simp only [expand_questions, hqp, expand_evidence_list]

/-- C10 corrected: evidence children are built through `calculate_posterior`
with `uniform_likelihood = 1 / len(resolved answers)`; but when the resolved
answer set is empty the per-answer loop never runs, so no division by zero
occurs and the expansion yields a question node with zero children. -/
theorem expand_questions_empty_answers {V : Type} (encode : String → V)
    (dist : V → V → ℚ) (task : TreeTask) (minp : ℚ) (fuel : Nat) (qtext : String)
    (depth : Nat) (qc : QuestionClustering V) (anc : Ancestry ℚ)
    (parent : EvidenceNode ℚ) (key : String) (qc1 : QuestionClustering V)
    (c0 : Cluster) (rows : List (String × List (String × ℚ)))
    (hq : get_cluster encode dist qc qtext = .ok (key, qc1))
    (hfind : alist_find qc1.clusters key = some c0)
    (hc0 : c0.likelihoods = [])
    (hlik : task.get_likelihoods qtext []
      (missing_hypotheses parent.belief_state c0) = .ok rows) :
    (∀ (pb lk : List (String × ℚ)) (c : Cluster) (conf post : _) (marg : ℚ)
        (all rest : List String) (a : String) (tail : List (EvidenceNode ℚ)),
      c.get_likelihoods_for_answer a = some lk →
      calculate_posterior pb lk minp (1 / (all.length : ℚ)) conf =
        some (post, marg) →
      build_evidence_children pb c minp conf all rest = .ok tail →
      build_evidence_children pb c minp conf all (a :: rest) =
        .ok (EvidenceNode.mk a post marg [] :: tail)) ∧
    ∃ qc2, expand_questions encode dist task minp (fuel + 2)
      (QuestionNode.mk qtext [] []) depth qc anc parent =
      some (.ok (QuestionNode.mk qtext [] [], qc2)) := by
  constructor
  · intro pb lk c conf post marg all rest a tail hlk hcp hrest
    simp only [build_evidence_children, hlk, hcp, hrest]
  · have hans : c0.get_answers = .ok [] := by
      simp only [Cluster.get_answers, hc0]
    have hqp : ∃ qc2, question_phase encode dist task minp qtext [] [] qc parent =
        .ok ([], [], qc2) := by
      cases hmiss : (missing_hypotheses parent.belief_state c0).isEmpty with
      | true =>
        refine ⟨QuestionClustering.mk qc1.index (alist_insert qc1.clusters key c0)
          qc1.threshold, ?_⟩
        simp only [question_phase, List.isEmpty_nil, if_true, hq, hfind, hans,
          hmiss, build_evidence_children]
      | false =>
        refine ⟨QuestionClustering.mk qc1.index (alist_insert qc1.clusters key
          (Cluster.mk c0.questions (alist_update c0.likelihoods rows)))
          qc1.threshold, ?_⟩
        simp only [question_phase, List.isEmpty_nil, if_true, hq, hfind, hans,
          hmiss, Bool.false_eq_true, if_false, hlik, Except.map,
          build_evidence_children]
    rcases hqp with ⟨qc2, hqp⟩
    refine ⟨qc2, ?_⟩
    simp only [expand_questions, hqp, expand_evidence_list]

/-- Witness for C10's corrected theorem at the concrete empty-answers task. -/
theorem expand_questions_empty_answers_witness :
    (∀ (pb lk : List (String × ℚ)) (c : Cluster) (conf : ℚ)
        (post : List (String × ℚ)) (marg : ℚ) (all rest : List String)
        (a : String) (tail : List (EvidenceNode ℚ)),
      c.get_likelihoods_for_answer a = some lk →
      calculate_posterior pb lk 0 (1 / (all.length : ℚ)) conf =
        some (post, marg) →
      build_evidence_children pb c 0 conf all rest = .ok tail →
      build_evidence_children pb c 0 conf all (a :: rest) =
        .ok (EvidenceNode.mk a post marg [] :: tail)) ∧
    ∃ qc2, expand_questions (fun _ : String => ()) (fun _ _ => 0)
      empty_answer_task 0 (0 + 2) (QuestionNode.mk "Q?" [] []) 0
      (QuestionClustering.mk [] [] 1) [] (EvidenceNode.mk "ROOT" [("A", 1)] 1 []) =
      some (.ok (QuestionNode.mk "Q?" [] [], qc2)) :=
  expand_questions_empty_answers (fun _ : String => ()) (fun _ _ => 0)
    empty_answer_task 0 0 "Q?" 0 (QuestionClustering.mk [] [] 1) []
    (EvidenceNode.mk "ROOT" [("A", 1)] 1 []) "0"
    (QuestionClustering.mk [()] [("0", Cluster.mk [("Q?", 1)] [])] 1)
    (Cluster.mk [("Q?", 1)] []) [("A", [])] rfl rfl rfl rfl

end CABed
